import Mathlib

/-!
# A shallow embedding of `src/server.js` (CodeCompanion)

The server persists a collection of chat conversations in a single JSON
file (`db.json`) and relays each user turn to an external completion
service.  This file embeds the data model and the six HTTP handlers as
pure Lean functions and proves the specification's claims about them.

Modelling conventions:
* JS strings are finite sequences of UTF-16 units, modelled as `List Char`
  (`Str` below).
* Timestamps (`new Date().toISOString()`, compared as `new Date(s)`) are
  modelled by their numeric time value, i.e. the `Date.now()` millisecond
  count; the ISO-8601 rendering is strictly monotone in this value and two
  timestamps compare exactly as their numeric values do.  The several
  clock reads inside one handler are modelled as a single instant `now`.
* Each handler re-reads the store from disk and conditionally writes it
  back (`loadDb` / `saveDb` in the source).  A handler is therefore a
  function from the persisted store (plus request parameters and
  environment) to the pair (response, persisted store after the call).
* The external completion call (`fetch` + `response.json()`) is an opaque
  collaborator; its behaviour on one call is an explicit
  `CompletionOutcome` argument.
-/

/-- A JS string: a finite sequence of string units. -/
abbrev Str := List Char

/-- A chat message `{role, content}`.  `content` is `Option Str`
because the handler can build `{role:'assistant', content: undefined}`
(when the service body's first content element has no `text` property);
`none` models that `undefined`. -/
structure Message where
  role : Str
  content : Option Str
deriving DecidableEq

/-- A conversation record as stored in `db.json`. -/
structure Conversation where
  id : Str
  title : Str
  messages : List Message
  createdAt : Nat
  updatedAt : Nat
deriving DecidableEq

/-- The whole persisted collection: `{conversations: [...]}`. -/
structure Db where
  conversations : List Conversation
deriving DecidableEq

/-- The default title sentinel `'New Chat'`. -/
def defaultTitle : Str := "New Chat".toList

/-- Role string `'user'`. -/
def userRole : Str := "user".toList

/-- Role string `'assistant'`. -/
def assistantRole : Str := "assistant".toList

/-- The ellipsis marker `'...'` appended to truncated titles. -/
def ellipsis : Str := "...".toList

/-! ## Durable store (`loadDb` / `saveDb`)

`saveDb` runs `JSON.stringify` on the store object and writes the file;
`loadDb` checks `fs.existsSync`, runs `JSON.parse` inside `try/catch`, and
falls back to `{conversations: []}` on a missing or unparsable file.  The
text layer (`JSON.stringify`/`JSON.parse`) is the JSON library's faithful
bijection between documents and their serialisations, so the file contents
are modelled at the document-tree level. -/

/-- A JSON document tree, as produced by `JSON.parse`. -/
inductive Json where
  | null
  | str (s : Str)
  | num (n : Nat)
  | arr (elems : List Json)
  | obj (fields : List (Str × Json))

/-- Object field lookup, as JS property access on a parsed object. -/
def getField (fields : List (Str × Json)) (k : Str) : Option Json :=
  (fields.find? fun f => f.1 == k).map fun f => f.2

/-- Read a JSON string. -/
def decodeStr : Json → Option Str
  | .str s => some s
  | _ => none

/-- Read a JSON number. -/
def decodeNum : Json → Option Nat
  | .num n => some n
  | _ => none

/-- Decode every element of a JSON array. -/
def decodeList (d : Json → Option α) : List Json → Option (List α)
  | [] => some []
  | j :: js => do
    let a ← d j
    let as ← decodeList d js
    pure (a :: as)

/-- The object graph `JSON.stringify` serialises for one message.
`JSON.stringify` drops a property whose value is `undefined`, so a
contentless assistant message serialises as `{"role":"assistant"}`. -/
def encodeMessage (m : Message) : Json :=
  match m.content with
  | some s => .obj [("role".toList, .str m.role), ("content".toList, .str s)]
  | none => .obj [("role".toList, .str m.role)]

/-- Interpret a parsed JSON value as a message.  Reading an absent
`content` property yields `undefined` in JS, modelled as `none`. -/
def decodeMessage : Json → Option Message
  | .obj fields => do
    let r ← getField fields "role".toList >>= decodeStr
    let c : Option Str :=
      match getField fields "content".toList with
      | some (.str s) => some s
      | _ => none
    pure ⟨r, c⟩
  | _ => none

/-- The object graph `JSON.stringify` serialises for one conversation. -/
def encodeConversation (c : Conversation) : Json :=
  .obj [("id".toList, .str c.id),
        ("title".toList, .str c.title),
        ("messages".toList, .arr (c.messages.map encodeMessage)),
        ("createdAt".toList, .num c.createdAt),
        ("updatedAt".toList, .num c.updatedAt)]

/-- Interpret a parsed JSON value as a conversation. -/
def decodeConversation : Json → Option Conversation
  | .obj fields => do
    let i ← getField fields "id".toList >>= decodeStr
    let t ← getField fields "title".toList >>= decodeStr
    let mj ← getField fields "messages".toList
    let ms ← match mj with
             | .arr es => decodeList decodeMessage es
             | _ => none
    let ca ← getField fields "createdAt".toList >>= decodeNum
    let ua ← getField fields "updatedAt".toList >>= decodeNum
    pure ⟨i, t, ms, ca, ua⟩
  | _ => none

/-- The document `saveDb` writes: `{conversations: [...]}`. -/
def encodeDb (db : Db) : Json :=
  .obj [("conversations".toList, .arr (db.conversations.map encodeConversation))]

/-- Interpret a parsed JSON document as the store. -/
def decodeDb : Json → Option Db
  | .obj fields => do
    let cj ← getField fields "conversations".toList
    let cs ← match cj with
             | .arr es => decodeList decodeConversation es
             | _ => none
    pure ⟨cs⟩
  | _ => none

/-- State of the backing `db.json` file. -/
inductive FileState where
  | absent
  | corrupt
  | stored (doc : Json)

/-- `loadDb()`: `{conversations: []}` when the file is missing
(`!fs.existsSync`) or `JSON.parse` throws; otherwise the parsed
document. -/
def loadDb : FileState → Json
  | .absent => .obj [("conversations".toList, .arr [])]
  | .corrupt => .obj [("conversations".toList, .arr [])]
  | .stored doc => doc

/-- `saveDb(data)`: writes `JSON.stringify(data)` to the file. -/
def saveDb (db : Db) : FileState := .stored (encodeDb db)

/-! ## Conversation repository handlers -/

/-- Summary row returned by `GET /api/conversations`. -/
structure Summary where
  id : Str
  title : Str
  updatedAt : Nat
deriving DecidableEq

/-- The summary projection `c => ({id, title, updatedAt})`. -/
def mkSummary (c : Conversation) : Summary :=
  ⟨c.id, c.title, c.updatedAt⟩

/-- Insert into an already-sorted list, keeping earlier-input elements in
front of later ones with an equal key: this is the stable descending
order mandated for `Array.prototype.sort` with comparator
`(a, b) => new Date(b.updatedAt) - new Date(a.updatedAt)`. -/
def insertByUpdatedDesc (x : Summary) : List Summary → List Summary
  | [] => [x]
  | y :: ys =>
    if y.updatedAt > x.updatedAt then y :: insertByUpdatedDesc x ys
    else x :: y :: ys

/-- Stable sort by `updatedAt` descending (the unique output of any
stable sort under a consistent comparator, hence a faithful model of the
JS `sort` call). -/
def sortByUpdatedDesc : List Summary → List Summary
  | [] => []
  | x :: xs => insertByUpdatedDesc x (sortByUpdatedDesc xs)

/-- `GET /api/conversations`: map to summaries, sort by recency; the
handler never calls `saveDb`, so the persisted store is unchanged. -/
def listSummaries (db : Db) : List Summary × Db :=
  (sortByUpdatedDesc (db.conversations.map mkSummary), db)

/-- `GET /api/conversations/:id` (`none` models the 404 response). -/
def getConversation (db : Db) (id : Str) : Option Conversation :=
  db.conversations.find? fun c => c.id == id

/-- `Date.now().toString()`: the id is the decimal string of the clock
value at creation. -/
def mkId (now : Nat) : Str := (Nat.repr now).toList

/-- The object literal built by `POST /api/conversations`. -/
def newConversation (now : Nat) : Conversation :=
  { id := mkId now
    title := defaultTitle
    messages := []
    createdAt := now
    updatedAt := now }

/-- `POST /api/conversations`: push the new conversation and save. -/
def createConversation (db : Db) (now : Nat) : Conversation × Db :=
  (newConversation now, ⟨db.conversations ++ [newConversation now]⟩)

/-- A sequence of `create()` calls observing the clock values `ts`. -/
def createMany (db : Db) : List Nat → Db
  | [] => db
  | t :: ts => createMany (createConversation db t).2 ts

/-- In-place mutation of the object returned by `find`: the first array
element satisfying `p` is replaced by its image under `f`. -/
def updateFirst (p : Conversation → Bool) (f : Conversation → Conversation) :
    List Conversation → List Conversation
  | [] => []
  | c :: cs => if p c then f c :: cs else c :: updateFirst p f cs

/-- `PUT /api/conversations/:id`: `newTitle` is `req.body.title`
(`none` when absent); `undefined` and `''` are falsy, so only a present
non-empty title mutates and saves. -/
def renameConversation (db : Db) (id : Str) (newTitle : Option Str) (now : Nat) :
    Option Conversation × Db :=
  match db.conversations.find? fun c => c.id == id with
  | none => (none, db)
  | some conv =>
    match newTitle with
    | some t =>
      if t = [] then (some conv, db)
      else
        (some { conv with title := t, updatedAt := now },
         ⟨updateFirst (fun c => c.id == id)
            (fun c => { c with title := t, updatedAt := now })
            db.conversations⟩)
    | none => (some conv, db)

/-- `DELETE /api/conversations/:id`: filter the id out; 404 (and no save)
when the length did not change, else save and report success. -/
def deleteConversation (db : Db) (id : Str) : Bool × Db :=
  let remaining := db.conversations.filter fun c => !(c.id == id)
  if remaining.length = db.conversations.length then (false, db)
  else (true, ⟨remaining⟩)

/-! ## Message exchange (`POST /api/conversations/:id/message`) -/

/-- Behaviour of the external completion call on one turn, split by how
`const assistantText = data.content[0].text` behaves on the parsed body:
* `fetchError msg` — `fetch` or `response.json()` rejected;
* `badStatus errMsg` — `response.ok` is false (`errMsg` is
  `data.error?.message` when present);
* `noContent msg` — `response.ok` but `data.content` or
  `data.content[0]` is `undefined`/`null`: reading `.text` throws a
  `TypeError` with message `msg`;
* `noText` — `response.ok` and `data.content[0]` exists but has no
  `text` property: `assistantText` is `undefined` and nothing throws;
* `ok text` — `data.content[0].text` is the string `text`. -/
inductive CompletionOutcome where
  | fetchError (msg : Str)
  | badStatus (errMsg : Option Str)
  | noContent (msg : Str)
  | noText
  | ok (text : Str)
deriving DecidableEq

/-- Whether the completion step ends in the `catch` block: every path
that throws between the key check and the `saveDb` call.  `noText` does
not throw — the handler continues to persist and respond 200. -/
def completionThrows : CompletionOutcome → Bool
  | .fetchError _ => true
  | .badStatus _ => true
  | .noContent _ => true
  | .noText => false
  | .ok _ => false

/-- The HTTP result of a turn: 400, 404, 500, or the 200 payload
`{role:'assistant', content, conversationId, title}` (`content` is
`none` when `assistantText` was `undefined`: `res.json` then omits the
property). -/
inductive TurnResult where
  | validationError
  | notFound
  | internalError (msg : Str)
  | success (content : Option Str) (conversationId : Str) (title : Str)
deriving DecidableEq

/-- The payload title of a successful turn, if any. -/
def TurnResult.titleOf : TurnResult → Option Str
  | .success _ _ t => some t
  | _ => none

/-- `new Error('Missing API Key').message`. -/
def missingKeyMsg : Str := "Missing API Key".toList

/-- The fallback `'API Error'` in `data.error?.message || 'API Error'`. -/
def apiErrorMsg : Str := "API Error".toList

/-- `message.slice(0, 30) + (message.length > 30 ? '...' : '')`. -/
def deriveTitle (message : Str) : Str :=
  message.take 30 ++ (if message.length > 30 then ellipsis else [])

/-- `POST /api/conversations/:id/message`.  `message?` is
`req.body.message` (`none` when absent; the empty string is falsy),
`apiKey` is `process.env.ANTHROPIC_API_KEY`, `outcome` is the external
completion call's behaviour, `now` the clock.  Returns the response and
the persisted store after the handler. -/
def submitTurn (db : Db) (id : Str) (message? : Option Str)
    (apiKey : Option Str) (outcome : CompletionOutcome) (now : Nat) :
    TurnResult × Db :=
  match message? with
  | none => (.validationError, db)
  | some message =>
    if message = [] then (.validationError, db)
    else
      match db.conversations.find? fun c => c.id == id with
      | none => (.notFound, db)
      | some conv =>
        let messages1 := conv.messages ++ [Message.mk userRole (some message)]
        let title1 :=
          if messages1.length = 1 ∧ conv.title = defaultTitle then
            deriveTitle message
          else conv.title
        match apiKey with
        | none => (.internalError missingKeyMsg, db)
        | some _ =>
          match outcome with
          | .fetchError msg => (.internalError msg, db)
          | .badStatus errMsg => (.internalError (errMsg.getD apiErrorMsg), db)
          | .noContent msg => (.internalError msg, db)
          | .noText =>
            let conv' : Conversation :=
              { conv with
                  messages := messages1 ++ [Message.mk assistantRole none]
                  title := title1
                  updatedAt := now }
            (.success none conv.id title1,
             ⟨updateFirst (fun c => c.id == id) (fun _ => conv')
                db.conversations⟩)
          | .ok text =>
            let conv' : Conversation :=
              { conv with
                  messages := messages1 ++ [Message.mk assistantRole (some text)]
                  title := title1
                  updatedAt := now }
            (.success (some text) conv.id title1,
             ⟨updateFirst (fun c => c.id == id) (fun _ => conv')
                db.conversations⟩)

/-- The title after the in-memory append of the user message (the guard
`conv.messages.length === 1 && conv.title === 'New Chat'` evaluated after
the push). -/
def turnTitle (conv : Conversation) (message : Str) : Str :=
  if (conv.messages ++ [Message.mk userRole (some message)]).length = 1 ∧ conv.title = defaultTitle
  then deriveTitle message
  else conv.title

/-- A fresh conversation (default-sentinel title, no messages) used to
instantiate the quantified theorems below on executable inputs. -/
def sampleConv : Conversation :=
  { id := "101".toList
    title := defaultTitle
    messages := []
    createdAt := 4
    updatedAt := 4 }

/-- A conversation that already holds a derived title and two messages. -/
def sampleConv2 : Conversation :=
  { id := "202".toList
    title := "Greetings".toList
    messages := [Message.mk userRole (some "hi".toList),
                 Message.mk assistantRole (some "hello there".toList)]
    createdAt := 2
    updatedAt := 9 }

/-- A concrete two-conversation store for instantiations. -/
def sampleDb : Db := ⟨[sampleConv, sampleConv2]⟩

/-! ## Decimal ids: the value of a decimal digit string

`mkId` renders the clock value in decimal (`Nat.repr`).  Reading the
digit string back as a number is a left inverse, so distinct clock
values yield distinct ids. -/

/-- Numeric value of a decimal digit character. -/
def digitVal (c : Char) : Nat := c.toNat - '0'.toNat

/-- Value of a decimal digit string (most significant digit first). -/
def digitsVal (l : List Char) : Nat :=
  l.foldl (fun a c => 10 * a + digitVal c) 0

theorem digitsVal_append_digit (l : List Char) (c : Char) :
    digitsVal (l ++ [c]) = 10 * digitsVal l + digitVal c := by
  simp [digitsVal, List.foldl_append]

theorem toDigitsCore_append (fuel : Nat) :
    ∀ (n : Nat) (ds : List Char),
      Nat.toDigitsCore 10 fuel n ds = Nat.toDigitsCore 10 fuel n [] ++ ds := by
  induction fuel with
  | zero => intro n ds; simp [Nat.toDigitsCore]
  | succ f ih =>
    intro n ds
    simp only [Nat.toDigitsCore]
    by_cases h : n / 10 = 0
    · simp [h]
    · simp only [h, if_neg, ite_false]
      rw [ih (n / 10) (Nat.digitChar (n % 10) :: ds),
          ih (n / 10) [Nat.digitChar (n % 10)]]
      simp

theorem digitVal_digitChar (m : Nat) (h : m < 10) :
    digitVal (Nat.digitChar m) = m := by
  interval_cases m <;> decide

theorem digitsVal_toDigitsCore (fuel : Nat) :
    ∀ n : Nat, n < 10 ^ fuel →
      digitsVal (Nat.toDigitsCore 10 fuel n []) = n := by
  induction fuel with
  | zero =>
    intro n hn
    interval_cases n
    simp [Nat.toDigitsCore, digitsVal]
  | succ f ih =>
    intro n hn
    simp only [Nat.toDigitsCore]
    by_cases h : n / 10 = 0
    · simp only [h, ite_true]
      have hlt : n % 10 < 10 := Nat.mod_lt _ (by norm_num)
      have : digitsVal [Nat.digitChar (n % 10)] = n % 10 := by
        simp [digitsVal, digitVal_digitChar _ hlt]
      rw [this]
      omega
    · simp only [h, if_neg, ite_false]
      rw [toDigitsCore_append f (n / 10) [Nat.digitChar (n % 10)]]
      rw [digitsVal_append_digit]
      have hdiv : n / 10 < 10 ^ f := by
        have : n < 10 ^ f * 10 := by
          rw [← pow_succ]; exact hn
        exact Nat.div_lt_of_lt_mul (by omega)
      rw [ih (n / 10) hdiv]
      have hlt : n % 10 < 10 := Nat.mod_lt _ (by norm_num)
      rw [digitVal_digitChar _ hlt]
      omega

theorem digitsVal_mkId (n : Nat) : digitsVal (mkId n) = n := by
  have hlist : mkId n = Nat.toDigitsCore 10 (n + 1) n [] := rfl
  rw [hlist]
  apply digitsVal_toDigitsCore
  calc n < 2 ^ n := Nat.lt_two_pow n
    _ ≤ 10 ^ n := Nat.pow_le_pow_left (by norm_num) n
    _ ≤ 10 ^ (n + 1) := Nat.pow_le_pow_right (by norm_num) (Nat.le_succ n)

theorem mkId_injective : Function.Injective mkId := by
  intro a b h
  have ha := digitsVal_mkId a
  have hb := digitsVal_mkId b
  rw [h, hb] at ha
  exact ha.symm

/-! ## Helper lemmas: in-place update of the first match -/

theorem updateFirst_filter_not (p : Conversation → Bool) (f : Conversation → Conversation)
    (hp : ∀ a, p a = true → p (f a) = true) :
    ∀ l : List Conversation,
      (updateFirst p f l).filter (fun a => !(p a)) = l.filter (fun a => !(p a))
  | [] => rfl
  | c :: cs => by
    cases hpc : p c with
    | true => simp [updateFirst, hpc, hp c hpc]
    | false => simp [updateFirst, hpc, updateFirst_filter_not p f hp cs]

theorem find?_updateFirst (p : Conversation → Bool) (f : Conversation → Conversation)
    (hp : ∀ a, p a = true → p (f a) = true) :
    ∀ (l : List Conversation) (c : Conversation), l.find? p = some c →
      (updateFirst p f l).find? p = some (f c)
  | [], _, h => by simp [List.find?] at h
  | x :: xs, c, h => by
    cases hpc : p x with
    | true =>
      rw [List.find?_cons_of_pos _ hpc] at h
      injection h with h
      subst h
      simp [updateFirst, hpc, List.find?_cons_of_pos _ (hp x hpc)]
    | false =>
      rw [List.find?_cons_of_neg _ (by simp [hpc])] at h
      have ih := find?_updateFirst p f hp xs c h
      simp only [updateFirst, hpc, Bool.false_eq_true, if_false]
      rw [List.find?_cons_of_neg _ (by simp [hpc])]
      exact ih

/-! ## Helper lemmas: the stable descending sort -/

theorem insertByUpdatedDesc_perm (x : Summary) :
    ∀ l : List Summary, List.Perm (insertByUpdatedDesc x l) (x :: l)
  | [] => List.Perm.refl _
  | y :: ys => by
    by_cases h : y.updatedAt > x.updatedAt
    · simp only [insertByUpdatedDesc, if_pos h]
      exact ((insertByUpdatedDesc_perm x ys).cons y).trans (List.Perm.swap x y ys)
    · simp [insertByUpdatedDesc, if_neg h]

theorem sortByUpdatedDesc_perm :
    ∀ l : List Summary, List.Perm (sortByUpdatedDesc l) l
  | [] => List.Perm.refl _
  | x :: xs =>
    (insertByUpdatedDesc_perm x (sortByUpdatedDesc xs)).trans
      ((sortByUpdatedDesc_perm xs).cons x)

theorem pairwise_insertByUpdatedDesc (x : Summary) :
    ∀ l : List Summary,
      List.Pairwise (fun a b => b.updatedAt ≤ a.updatedAt) l →
      List.Pairwise (fun a b => b.updatedAt ≤ a.updatedAt) (insertByUpdatedDesc x l)
  | [], _ => by simp [insertByUpdatedDesc]
  | y :: ys, h => by
    rw [List.pairwise_cons] at h
    obtain ⟨hy, hys⟩ := h
    by_cases hxy : y.updatedAt > x.updatedAt
    · simp only [insertByUpdatedDesc, if_pos hxy]
      rw [List.pairwise_cons]
      refine ⟨?_, pairwise_insertByUpdatedDesc x ys hys⟩
      intro z hz
      have hz' : z ∈ x :: ys := (insertByUpdatedDesc_perm x ys).mem_iff.mp hz
      rcases List.mem_cons.mp hz' with hzx | hzys
      · subst hzx; omega
      · exact hy z hzys
    · simp only [insertByUpdatedDesc, if_neg hxy]
      rw [List.pairwise_cons]
      constructor
      · intro z hz
        rcases List.mem_cons.mp hz with hzy | hzys
        · subst hzy; omega
        · have := hy z hzys; omega
      · exact List.pairwise_cons.mpr ⟨hy, hys⟩

theorem pairwise_sortByUpdatedDesc :
    ∀ l : List Summary,
      List.Pairwise (fun a b => b.updatedAt ≤ a.updatedAt) (sortByUpdatedDesc l)
  | [] => List.Pairwise.nil
  | x :: xs => pairwise_insertByUpdatedDesc x _ (pairwise_sortByUpdatedDesc xs)

theorem filter_insertByUpdatedDesc (k : Nat) (x : Summary) :
    ∀ l : List Summary,
      (insertByUpdatedDesc x l).filter (fun s => s.updatedAt == k)
        = (x :: l).filter (fun s => s.updatedAt == k)
  | [] => rfl
  | y :: ys => by
    by_cases h : y.updatedAt > x.updatedAt
    · simp only [insertByUpdatedDesc, if_pos h]
      cases hx : (x.updatedAt == k) with
      | true =>
        have hy : (y.updatedAt == k) = false := by
          have hxk : x.updatedAt = k := by simpa using hx
          have : y.updatedAt ≠ k := by omega
          simpa using this
        simp only [List.filter_cons, hx, hy]
        rw [filter_insertByUpdatedDesc k x ys]
        simp [List.filter_cons, hx]
      | false =>
        simp only [List.filter_cons, hx]
        rw [filter_insertByUpdatedDesc k x ys]
        simp [List.filter_cons, hx]
    · simp [insertByUpdatedDesc, if_neg h]

theorem filter_sortByUpdatedDesc (k : Nat) :
    ∀ l : List Summary,
      (sortByUpdatedDesc l).filter (fun s => s.updatedAt == k)
        = l.filter (fun s => s.updatedAt == k)
  | [] => rfl
  | x :: xs => by
    rw [show sortByUpdatedDesc (x :: xs)
          = insertByUpdatedDesc x (sortByUpdatedDesc xs) from rfl,
        filter_insertByUpdatedDesc k x (sortByUpdatedDesc xs)]
    simp only [List.filter_cons]
    rw [filter_sortByUpdatedDesc k xs]

/-! ## Helper lemmas: deletion under unique ids -/

theorem delete_filter_of_found (id : Str) :
    ∀ l : List Conversation,
      (l.map fun c => c.id).Nodup →
      ∀ conv : Conversation, l.find? (fun c => c.id == id) = some conv →
        (l.filter fun c => !(c.id == id)).length + 1 = l.length ∧
        (l.filter fun c => !(c.id == id)).find? (fun c => c.id == id) = none
  | [], _, conv, h => by simp [List.find?] at h
  | x :: xs, hnodup, conv, h => by
    rw [List.map_cons, List.nodup_cons] at hnodup
    obtain ⟨hx_not_mem, hxs_nodup⟩ := hnodup
    cases hpc : (x.id == id) with
    | true =>
      have hxid : x.id = id := by simpa using hpc
      have hall : ∀ d ∈ xs, (!(d.id == id)) = true := by
        intro d hd
        have : d.id ≠ id := by
          intro hdi
          exact hx_not_mem (by
            rw [hxid, ← hdi]
            exact List.mem_map_of_mem (fun c => c.id) hd)
        simpa using this
      have hfilter : xs.filter (fun c => !(c.id == id)) = xs :=
        List.filter_eq_self.mpr hall
      refine ⟨?_, ?_⟩
      · simp [List.filter_cons, hpc, hfilter]
      · simp only [List.filter_cons, hpc, Bool.not_true, Bool.false_eq_true,
          if_false, hfilter]
        rw [List.find?_eq_none]
        intro d hd
        have := hall d hd
        simpa using this
    | false =>
      rw [List.find?_cons_of_neg _ (by simp [hpc])] at h
      obtain ⟨ih1, ih2⟩ := delete_filter_of_found id xs hxs_nodup conv h
      refine ⟨?_, ?_⟩
      · simp only [List.filter_cons, hpc, Bool.not_false, if_true, List.length_cons]
        omega
      · simp only [List.filter_cons, hpc, Bool.not_false, if_true]
        rw [List.find?_cons_of_neg _ (by simp [hpc])]
        exact ih2

/-! ## Helper lemmas: the JSON document round-trip -/

theorem decodeMessage_encodeMessage (m : Message) :
    decodeMessage (encodeMessage m) = some m := by
  obtain ⟨r, c⟩ := m
  cases c <;> rfl

theorem decodeList_encodeMessage :
    ∀ ms : List Message,
      decodeList decodeMessage (ms.map encodeMessage) = some ms
  | [] => rfl
  | m :: ms => by
    show (do
        let a ← decodeMessage (encodeMessage m)
        let as ← decodeList decodeMessage (ms.map encodeMessage)
        pure (a :: as) : Option (List Message)) = some (m :: ms)
    rw [decodeMessage_encodeMessage, decodeList_encodeMessage ms]
    rfl

theorem decodeConversation_encodeConversation (c : Conversation) :
    decodeConversation (encodeConversation c) = some c := by
  have h : decodeConversation (encodeConversation c)
      = (decodeList decodeMessage (c.messages.map encodeMessage)).bind
          (fun ms => some ⟨c.id, c.title, ms, c.createdAt, c.updatedAt⟩) := rfl
  rw [h, decodeList_encodeMessage]
  rfl

theorem decodeList_encodeConversation :
    ∀ cs : List Conversation,
      decodeList decodeConversation (cs.map encodeConversation) = some cs
  | [] => rfl
  | c :: cs => by
    show (do
        let a ← decodeConversation (encodeConversation c)
        let as ← decodeList decodeConversation (cs.map encodeConversation)
        pure (a :: as) : Option (List Conversation)) = some (c :: cs)
    rw [decodeConversation_encodeConversation, decodeList_encodeConversation cs]
    rfl

theorem decodeDb_encodeDb (db : Db) : decodeDb (encodeDb db) = some db := by
  have h : decodeDb (encodeDb db)
      = (decodeList decodeConversation (db.conversations.map encodeConversation)).bind
          (fun cs => some ⟨cs⟩) := rfl
  rw [h, decodeList_encodeConversation]
  rfl

/-! ## Helper lemmas: one conversational turn -/

theorem turnTitle_of_first (conv : Conversation) (message : Str)
    (h1 : conv.messages = []) (h2 : conv.title = defaultTitle) :
    turnTitle conv message = deriveTitle message := by
  simp [turnTitle, h1, h2]

theorem turnTitle_of_not_first (conv : Conversation) (message : Str)
    (h : conv.messages ≠ [] ∨ conv.title ≠ defaultTitle) :
    turnTitle conv message = conv.title := by
  have hneg : ¬ ((conv.messages ++ [Message.mk userRole (some message)]).length = 1
      ∧ conv.title = defaultTitle) := by
    rintro ⟨h1, h2⟩
    rcases h with h | h
    · apply h
      have h0 : conv.messages.length = 0 := by
        simp only [List.length_append, List.length_cons, List.length_nil] at h1
        omega
      exact List.length_eq_zero.mp h0
    · exact h h2
  simp only [turnTitle, if_neg hneg]

theorem submitTurn_of_found (db : Db) (id : Str) (message : Str)
    (conv : Conversation) (apiKey : Option Str) (o : CompletionOutcome) (now : Nat)
    (hm : ¬ message = [])
    (hfound : db.conversations.find? (fun c => c.id == id) = some conv) :
    submitTurn db id (some message) apiKey o now =
      match apiKey with
      | none => (.internalError missingKeyMsg, db)
      | some _ =>
        match o with
        | .fetchError msg => (.internalError msg, db)
        | .badStatus errMsg => (.internalError (errMsg.getD apiErrorMsg), db)
        | .noContent msg => (.internalError msg, db)
        | .noText =>
          (.success none conv.id (turnTitle conv message),
           ⟨updateFirst (fun c => c.id == id)
              (fun _ =>
                { conv with
                    messages := (conv.messages ++ [Message.mk userRole (some message)])
                      ++ [Message.mk assistantRole none]
                    title := turnTitle conv message
                    updatedAt := now })
              db.conversations⟩)
        | .ok text =>
          (.success (some text) conv.id (turnTitle conv message),
           ⟨updateFirst (fun c => c.id == id)
              (fun _ =>
                { conv with
                    messages := (conv.messages ++ [Message.mk userRole (some message)])
                      ++ [Message.mk assistantRole (some text)]
                    title := turnTitle conv message
                    updatedAt := now })
              db.conversations⟩) := by
  simp only [submitTurn, if_neg hm, hfound, turnTitle]

/-! ## The claims -/

/-- C8: `load()` never fails: on an absent backing file and on an
unparsable one it returns the empty collection `{conversations: []}`
instead of raising, and on a parsable file it returns exactly the
persisted document. -/
theorem loadDb_never_fails :
    loadDb .absent = encodeDb ⟨[]⟩ ∧
    loadDb .corrupt = encodeDb ⟨[]⟩ ∧
    decodeDb (loadDb .absent) = some ⟨[]⟩ ∧
    decodeDb (loadDb .corrupt) = some ⟨[]⟩ ∧
    ∀ doc : Json, loadDb (.stored doc) = doc :=
  ⟨rfl, rfl, rfl, rfl, fun _ => rfl⟩

/-- C9: round-trip: saving a store with `save` and reading it back with
`load` yields the same store; in particular every conversation's message
sequence has exactly the same elements in the same order as before. -/
theorem save_load_roundtrip (db : Db) :
    decodeDb (loadDb (saveDb db)) = some db ∧
    (decodeDb (loadDb (saveDb db))).map
        (fun db2 => db2.conversations.map fun c => c.messages)
      = some (db.conversations.map fun c => c.messages) := by
  have h : decodeDb (loadDb (saveDb db)) = some db := decodeDb_encodeDb db
  exact ⟨h, by rw [h, Option.map_some']⟩

/-- C5: `listSummaries()` returns exactly one `{id, title, updatedAt}`
record per conversation (a permutation of the projected store), sorted by
`updatedAt` descending, equal-`updatedAt` records appearing in store
order, and it does not write to the durable store. -/
theorem listSummaries_spec (db : Db) :
    List.Perm (listSummaries db).1 (db.conversations.map mkSummary) ∧
    List.Pairwise (fun a b => b.updatedAt ≤ a.updatedAt) (listSummaries db).1 ∧
    (∀ k : Nat,
      ((listSummaries db).1.filter fun s => s.updatedAt == k)
        = (db.conversations.map mkSummary).filter fun s => s.updatedAt == k) ∧
    (listSummaries db).2 = db :=
  ⟨sortByUpdatedDesc_perm _, pairwise_sortByUpdatedDesc _,
   fun k => filter_sortByUpdatedDesc k _, rfl⟩

/-- C4 counterexample: ids are `Date.now().toString()`, so two `create()`
calls within the same millisecond (here both observing clock value 5)
return conversations with the same id — the claim "ids are pairwise
distinct for every sequence of create() calls" fails on the code. -/
theorem create_id_collision :
    (createConversation ⟨[]⟩ 5).1.id
      = (createConversation (createConversation ⟨[]⟩ 5).2 5).1.id := rfl

/-- C4 amended: the ids returned by a sequence of `create()` calls are
pairwise distinct provided the `Date.now()` values the calls observe are
pairwise distinct. -/
theorem create_ids_distinct (ts : List Nat) (hts : ts.Nodup) :
    ((createMany ⟨[]⟩ ts).conversations.map fun c => c.id).Nodup := by
  have hgen : ∀ (ts : List Nat) (db : Db),
      createMany db ts = ⟨db.conversations ++ ts.map newConversation⟩ := by
    intro ts
    induction ts with
    | nil => intro db; simp [createMany]
    | cons t ts ih =>
      intro db
      rw [show createMany db (t :: ts)
            = createMany (createConversation db t).2 ts from rfl, ih]
      simp [createConversation]
  rw [hgen ts ⟨[]⟩]
  simp only [List.nil_append, List.map_map]
  have : ((fun c => c.id) ∘ newConversation) = mkId := rfl
  rw [this]
  exact hts.map mkId_injective

/-- Witness for C4 amended at the clock values `[3, 7, 40]`. -/
theorem create_ids_distinct_witness :
    ([3, 7, 40] : List Nat).Nodup ∧
    ((createMany ⟨[]⟩ [3, 7, 40]).conversations.map fun c => c.id).Nodup :=
  ⟨by decide, create_ids_distinct [3, 7, 40] (by decide)⟩

/-- C6: `rename` on an existing conversation: an absent or empty new
title returns the conversation unchanged and performs no save (persisted
store identical); a present non-empty title sets `title`, refreshes
`updatedAt`, leaves every other field unchanged, and persists the updated
record. -/
theorem rename_spec (db : Db) (id : Str) (conv : Conversation) (now : Nat)
    (hfound : getConversation db id = some conv) :
    renameConversation db id none now = (some conv, db) ∧
    renameConversation db id (some []) now = (some conv, db) ∧
    ∀ t : Str, t ≠ [] →
      (renameConversation db id (some t) now).1
          = some { conv with title := t, updatedAt := now } ∧
      getConversation (renameConversation db id (some t) now).2 id
          = some { conv with title := t, updatedAt := now } := by
  have hfind : db.conversations.find? (fun c => c.id == id) = some conv := hfound
  refine ⟨?_, ?_, ?_⟩
  · simp [renameConversation, hfind]
  · simp [renameConversation, hfind]
  · intro t ht
    constructor
    · simp [renameConversation, hfind, ht]
    · simp only [renameConversation, hfind, if_neg ht]
      exact find?_updateFirst (fun c => c.id == id)
        (fun c => { c with title := t, updatedAt := now })
        (fun a ha => ha) db.conversations conv hfind

/-- Witness for C6 on the sample store. -/
theorem rename_spec_witness :
    renameConversation sampleDb "101".toList none 77 = (some sampleConv, sampleDb) ∧
    renameConversation sampleDb "101".toList (some []) 77
        = (some sampleConv, sampleDb) ∧
    ∀ t : Str, t ≠ [] →
      (renameConversation sampleDb "101".toList (some t) 77).1
          = some { sampleConv with title := t, updatedAt := 77 } ∧
      getConversation (renameConversation sampleDb "101".toList (some t) 77).2
          "101".toList
          = some { sampleConv with title := t, updatedAt := 77 } :=
  rename_spec sampleDb "101".toList sampleConv 77 (by decide)

/-- C7: `delete(id)` on an unknown id signals Not-Found and leaves the
persisted collection (hence its size) unchanged; on a known id — under the
store invariant that ids are unique — it signals success, shrinks the
collection by exactly one, persists, and a subsequent `get(id)` signals
Not-Found. -/
theorem delete_spec (db : Db) (id : Str) :
    (getConversation db id = none → deleteConversation db id = (false, db)) ∧
    (∀ conv : Conversation,
      (db.conversations.map fun c => c.id).Nodup →
      getConversation db id = some conv →
        (deleteConversation db id).1 = true ∧
        (deleteConversation db id).2.conversations.length + 1
            = db.conversations.length ∧
        getConversation (deleteConversation db id).2 id = none) := by
  constructor
  · intro hnone
    have hfind : db.conversations.find? (fun c => c.id == id) = none := hnone
    have hall : ∀ c ∈ db.conversations, (!(c.id == id)) = true := by
      intro c hc
      have := List.find?_eq_none.mp hfind c hc
      simpa using this
    have hfilter : db.conversations.filter (fun c => !(c.id == id))
        = db.conversations := List.filter_eq_self.mpr hall
    simp [deleteConversation, hfilter]
  · intro conv hnodup hfound
    have hfind : db.conversations.find? (fun c => c.id == id) = some conv := hfound
    obtain ⟨hlen, hnone⟩ := delete_filter_of_found id db.conversations hnodup conv hfind
    have hne : (db.conversations.filter fun c => !(c.id == id)).length
        ≠ db.conversations.length := by omega
    refine ⟨?_, ?_, ?_⟩
    · simp [deleteConversation, hne]
    · simp only [deleteConversation, if_neg hne]
      exact hlen
    · show (deleteConversation db id).2.conversations.find?
          (fun c => c.id == id) = none
      simp only [deleteConversation, if_neg hne]
      exact hnone

/-- Witness for C7 on the sample store: `"zzz"` is unknown, `"202"` is
known. -/
theorem delete_spec_witness :
    deleteConversation sampleDb "zzz".toList = (false, sampleDb) ∧
    ((deleteConversation sampleDb "202".toList).1 = true ∧
     (deleteConversation sampleDb "202".toList).2.conversations.length + 1
         = sampleDb.conversations.length ∧
     getConversation (deleteConversation sampleDb "202".toList).2 "202".toList
         = none) :=
  ⟨(delete_spec sampleDb "zzz".toList).1 (by decide),
   (delete_spec sampleDb "202".toList).2 sampleConv2 (by decide) (by decide)⟩

/-- C10: frame property: `rename`, `delete` and `submitTurn` targeted at
one id leave the sublist of persisted conversations with a different id
(every field, order and multiplicity included) exactly as it was. -/
theorem mutators_frame (db : Db) (id : Str) (newTitle : Option Str)
    (message? : Option Str) (apiKey : Option Str) (o : CompletionOutcome)
    (now : Nat) :
    ((renameConversation db id newTitle now).2.conversations.filter
        fun c => !(c.id == id))
      = db.conversations.filter (fun c => !(c.id == id)) ∧
    ((deleteConversation db id).2.conversations.filter
        fun c => !(c.id == id))
      = db.conversations.filter (fun c => !(c.id == id)) ∧
    ((submitTurn db id message? apiKey o now).2.conversations.filter
        fun c => !(c.id == id))
      = db.conversations.filter (fun c => !(c.id == id)) := by
  refine ⟨?_, ?_, ?_⟩
  · cases hfind : db.conversations.find? (fun c => c.id == id) with
    | none => simp [renameConversation, hfind]
    | some conv =>
      cases newTitle with
      | none => simp [renameConversation, hfind]
      | some t =>
        by_cases ht : t = []
        · simp [renameConversation, hfind, ht]
        · simp only [renameConversation, hfind, if_neg ht]
          exact updateFirst_filter_not (fun c => c.id == id)
            (fun c => { c with title := t, updatedAt := now })
            (fun a ha => ha) db.conversations
  · by_cases hlen : (db.conversations.filter fun c => !(c.id == id)).length
        = db.conversations.length
    · simp [deleteConversation, hlen]
    · simp only [deleteConversation, if_neg hlen]
      exact List.filter_eq_self.mpr fun a ha => (List.mem_filter.mp ha).2
  · cases message? with
    | none => simp [submitTurn]
    | some m =>
      by_cases hm : m = []
      · simp [submitTurn, hm]
      · cases hfind : db.conversations.find? (fun c => c.id == id) with
        | none => simp [submitTurn, if_neg hm, hfind]
        | some conv =>
          rw [submitTurn_of_found db id m conv apiKey o now hm hfind]
          cases apiKey with
          | none => rfl
          | some k =>
            cases o with
            | fetchError msg => rfl
            | badStatus errMsg => rfl
            | noContent msg => rfl
            | noText =>
              have hconv := List.find?_some hfind
              exact updateFirst_filter_not (fun c => c.id == id)
                (fun _ =>
                  { conv with
                      messages := (conv.messages ++ [Message.mk userRole (some m)])
                        ++ [Message.mk assistantRole none]
                      title := turnTitle conv m
                      updatedAt := now })
                (fun a _ => hconv) db.conversations
            | ok text =>
              have hconv := List.find?_some hfind
              exact updateFirst_filter_not (fun c => c.id == id)
                (fun _ =>
                  { conv with
                      messages := (conv.messages ++ [Message.mk userRole (some m)])
                        ++ [Message.mk assistantRole (some text)]
                      title := turnTitle conv m
                      updatedAt := now })
                (fun a _ => hconv) db.conversations

/-- C1 counterexample: the claim fails on the code for a body missing
the expected content.  On an ok-status body whose first content element
exists but has no `text` property (`{"content":[{}]}`, the `noText`
outcome), `data.content[0].text` is `undefined` and nothing throws: the
handler persists the turn and responds 200.  Concretely, on the sample
store the persisted store changes, the result is a success payload (with
no content), and a subsequent `get` shows two new messages. -/
theorem submitTurn_missing_text_persists :
    (submitTurn sampleDb "101".toList (some "hi".toList) (some "key".toList)
        .noText 50).2 ≠ sampleDb ∧
    (submitTurn sampleDb "101".toList (some "hi".toList) (some "key".toList)
        .noText 50).1
      = .success none "101".toList "hi".toList ∧
    (getConversation
        (submitTurn sampleDb "101".toList (some "hi".toList)
            (some "key".toList) .noText 50).2 "101".toList).map
      (fun c => c.messages)
      = some [Message.mk userRole (some "hi".toList),
              Message.mk assistantRole none] := by
  refine ⟨by decide, by decide, by decide⟩

/-- C1 amended: whenever the completion step of a turn fails by throwing
(missing credential, transport failure, non-success service response, or
a body whose content array or first element is missing, so that reading
`.text` throws), the persisted store is exactly what it was before the
turn — a subsequent `get(id)` sees neither the new user message nor any
assistant message — and the operation reports an internal error, not a
success payload.  (A 200 body whose first content element merely lacks
`text` is NOT such a failure: the code persists and reports success, see
the counterexample.) -/
theorem submitTurn_failure_no_persist (db : Db) (id : Str) (m : Str)
    (conv : Conversation) (apiKey : Option Str) (o : CompletionOutcome)
    (now : Nat)
    (hm : m ≠ [])
    (hfound : getConversation db id = some conv)
    (hfail : apiKey = none ∨ completionThrows o = true) :
    (submitTurn db id (some m) apiKey o now).2 = db ∧
    (∃ e : Str, (submitTurn db id (some m) apiKey o now).1 = .internalError e) ∧
    getConversation (submitTurn db id (some m) apiKey o now).2 id
      = getConversation db id := by
  have hfind : db.conversations.find? (fun c => c.id == id) = some conv := hfound
  rw [submitTurn_of_found db id m conv apiKey o now hm hfind]
  cases apiKey with
  | none => exact ⟨rfl, ⟨missingKeyMsg, rfl⟩, rfl⟩
  | some k =>
    rcases hfail with hfail | hfail
    · exact absurd hfail (by simp)
    · cases o with
      | fetchError msg => exact ⟨rfl, ⟨msg, rfl⟩, rfl⟩
      | badStatus errMsg => exact ⟨rfl, ⟨errMsg.getD apiErrorMsg, rfl⟩, rfl⟩
      | noContent msg => exact ⟨rfl, ⟨msg, rfl⟩, rfl⟩
      | noText => exact absurd hfail (by simp [completionThrows])
      | ok text => exact absurd hfail (by simp [completionThrows])

/-- Witness for C1: a service-error turn on the sample store persists
nothing and yields an internal error. -/
theorem submitTurn_failure_no_persist_witness :
    (submitTurn sampleDb "101".toList (some "hi".toList) (some "key".toList)
        (.badStatus (some "overloaded".toList)) 50).2 = sampleDb ∧
    (∃ e : Str,
      (submitTurn sampleDb "101".toList (some "hi".toList) (some "key".toList)
          (.badStatus (some "overloaded".toList)) 50).1 = .internalError e) ∧
    getConversation
        (submitTurn sampleDb "101".toList (some "hi".toList) (some "key".toList)
            (.badStatus (some "overloaded".toList)) 50).2 "101".toList
      = getConversation sampleDb "101".toList :=
  submitTurn_failure_no_persist sampleDb "101".toList "hi".toList sampleConv
    (some "key".toList) (.badStatus (some "overloaded".toList)) 50
    (by decide) (by decide) (Or.inr (by decide))

theorem submitTurn_success_parts (db : Db) (id : Str) (m : Str)
    (conv : Conversation) (key text : Str) (now : Nat)
    (hm : m ≠ [])
    (hfound : db.conversations.find? (fun c => c.id == id) = some conv) :
    (submitTurn db id (some m) (some key) (.ok text) now).1
        = .success (some text) conv.id (turnTitle conv m) ∧
    getConversation (submitTurn db id (some m) (some key) (.ok text) now).2 id
        = some { conv with
            messages := (conv.messages ++ [Message.mk userRole (some m)])
              ++ [Message.mk assistantRole (some text)]
            title := turnTitle conv m
            updatedAt := now } := by
  rw [submitTurn_of_found db id m conv (some key) (.ok text) now hm hfound]
  have hconv := List.find?_some hfound
  exact ⟨rfl,
    find?_updateFirst (fun c => c.id == id)
      (fun _ =>
        { conv with
            messages := (conv.messages ++ [Message.mk userRole (some m)])
              ++ [Message.mk assistantRole (some text)]
            title := turnTitle conv m
            updatedAt := now })
      (fun a _ => hconv) db.conversations conv hfound⟩

theorem submitTurn_noText_parts (db : Db) (id : Str) (m : Str)
    (conv : Conversation) (key : Str) (now : Nat)
    (hm : m ≠ [])
    (hfound : db.conversations.find? (fun c => c.id == id) = some conv) :
    (submitTurn db id (some m) (some key) .noText now).1
        = .success none conv.id (turnTitle conv m) ∧
    getConversation (submitTurn db id (some m) (some key) .noText now).2 id
        = some { conv with
            messages := (conv.messages ++ [Message.mk userRole (some m)])
              ++ [Message.mk assistantRole none]
            title := turnTitle conv m
            updatedAt := now } := by
  rw [submitTurn_of_found db id m conv (some key) .noText now hm hfound]
  have hconv := List.find?_some hfound
  exact ⟨rfl,
    find?_updateFirst (fun c => c.id == id)
      (fun _ =>
        { conv with
            messages := (conv.messages ++ [Message.mk userRole (some m)])
              ++ [Message.mk assistantRole none]
            title := turnTitle conv m
            updatedAt := now })
      (fun a _ => hconv) db.conversations conv hfound⟩

/-- C2: on a first turn into a conversation still titled with the default
sentinel, a 30-unit text becomes the title verbatim (no ellipsis), and a
text of 31 or more units yields the first 30 units followed by `'...'`. -/
theorem title_derivation_boundary (db : Db) (id : Str) (m : Str)
    (conv : Conversation) (key text : Str) (now : Nat)
    (hfound : getConversation db id = some conv)
    (hempty : conv.messages = [])
    (htitle : conv.title = defaultTitle) :
    (m.length = 30 →
      (submitTurn db id (some m) (some key) (.ok text) now).1
          = .success (some text) conv.id m ∧
      (getConversation
          (submitTurn db id (some m) (some key) (.ok text) now).2 id).map
        (fun c => c.title) = some m) ∧
    (m.length > 30 →
      (submitTurn db id (some m) (some key) (.ok text) now).1
          = .success (some text) conv.id (m.take 30 ++ ellipsis) ∧
      (getConversation
          (submitTurn db id (some m) (some key) (.ok text) now).2 id).map
        (fun c => c.title) = some (m.take 30 ++ ellipsis)) := by
  have hfind : db.conversations.find? (fun c => c.id == id) = some conv := hfound
  constructor
  · intro hlen
    have hm : m ≠ [] := by
      intro h
      rw [h] at hlen
      simp at hlen
    obtain ⟨h1, h2⟩ :=
      submitTurn_success_parts db id m conv key text now hm hfind
    have hd : deriveTitle m = m := by
      unfold deriveTitle
      rw [if_neg (by omega), List.append_nil, List.take_of_length_le (by omega)]
    have ht : turnTitle conv m = m := by
      rw [turnTitle_of_first conv m hempty htitle, hd]
    constructor
    · rw [h1, ht]
    · rw [h2, Option.map_some']
      show some (turnTitle conv m) = some m
      rw [ht]
  · intro hlen
    have hm : m ≠ [] := by
      intro h
      rw [h] at hlen
      simp at hlen
    obtain ⟨h1, h2⟩ :=
      submitTurn_success_parts db id m conv key text now hm hfind
    have hd : deriveTitle m = m.take 30 ++ ellipsis := by
      unfold deriveTitle
      rw [if_pos (by omega)]
    have ht : turnTitle conv m = m.take 30 ++ ellipsis := by
      rw [turnTitle_of_first conv m hempty htitle, hd]
    constructor
    · rw [h1, ht]
    · rw [h2, Option.map_some']
      show some (turnTitle conv m) = some (m.take 30 ++ ellipsis)
      rw [ht]

/-- Witness for C2: a 30-unit text and a 31-unit text on the sample
store. -/
theorem title_derivation_boundary_witness :
    ((submitTurn sampleDb "101".toList (some (List.replicate 30 'a'))
        (some "key".toList) (.ok "sure".toList) 60).1
      = .success (some "sure".toList) sampleConv.id (List.replicate 30 'a') ∧
     (getConversation
         (submitTurn sampleDb "101".toList (some (List.replicate 30 'a'))
             (some "key".toList) (.ok "sure".toList) 60).2 "101".toList).map
       (fun c => c.title) = some (List.replicate 30 'a')) ∧
    ((submitTurn sampleDb "101".toList (some (List.replicate 31 'b'))
        (some "key".toList) (.ok "sure".toList) 60).1
      = .success (some "sure".toList) sampleConv.id
          ((List.replicate 31 'b').take 30 ++ ellipsis) ∧
     (getConversation
         (submitTurn sampleDb "101".toList (some (List.replicate 31 'b'))
             (some "key".toList) (.ok "sure".toList) 60).2 "101".toList).map
       (fun c => c.title)
       = some ((List.replicate 31 'b').take 30 ++ ellipsis)) :=
  ⟨(title_derivation_boundary sampleDb "101".toList (List.replicate 30 'a')
      sampleConv "key".toList "sure".toList 60 (by decide) rfl rfl).1
    (by simp),
   (title_derivation_boundary sampleDb "101".toList (List.replicate 31 'b')
      sampleConv "key".toList "sure".toList 60 (by decide) rfl rfl).2
    (by simp)⟩

/-- C3: title auto-derivation fires at most once: on any turn whose
conversation already has messages, or whose title no longer equals the
default sentinel, the title is unchanged (both in the persisted store and
in any success payload); consequently a second submitted turn never
changes a title set by a successful first turn. -/
theorem title_derivation_once (db : Db) (id : Str) :
    (∀ (m : Str) (conv : Conversation) (apiKey : Option Str)
        (o : CompletionOutcome) (now : Nat),
      m ≠ [] →
      getConversation db id = some conv →
      (conv.messages ≠ [] ∨ conv.title ≠ defaultTitle) →
      ((getConversation (submitTurn db id (some m) apiKey o now).2 id).map
          (fun c => c.title) = some conv.title ∧
       ∀ content cid ti,
         (submitTurn db id (some m) apiKey o now).1
             = .success content cid ti → ti = conv.title)) ∧
    (∀ (m1 : Str) (conv : Conversation) (key1 text1 : Str) (now1 : Nat)
        (m2 : Str) (apiKey2 : Option Str) (o2 : CompletionOutcome) (now2 : Nat),
      m1 ≠ [] → m2 ≠ [] →
      getConversation db id = some conv →
      (getConversation
          (submitTurn
            (submitTurn db id (some m1) (some key1) (.ok text1) now1).2
            id (some m2) apiKey2 o2 now2).2 id).map (fun c => c.title)
        = (getConversation
            (submitTurn db id (some m1) (some key1) (.ok text1) now1).2
            id).map (fun c => c.title)) := by
  constructor
  · intro m conv apiKey o now hm hfound hguard
    have hfind : db.conversations.find? (fun c => c.id == id) = some conv :=
      hfound
    have ht := turnTitle_of_not_first conv m hguard
    cases apiKey with
    | none =>
      rw [submitTurn_of_found db id m conv none o now hm hfind]
      refine ⟨?_, ?_⟩
      · show (getConversation db id).map (fun c => c.title) = some conv.title
        rw [hfound]
        rfl
      · intro content cid ti h
        exact TurnResult.noConfusion h
    | some k =>
      cases o with
      | fetchError msg =>
        rw [submitTurn_of_found db id m conv (some k) (.fetchError msg) now hm
            hfind]
        refine ⟨?_, ?_⟩
        · show (getConversation db id).map (fun c => c.title) = some conv.title
          rw [hfound]
          rfl
        · intro content cid ti h
          exact TurnResult.noConfusion h
      | badStatus errMsg =>
        rw [submitTurn_of_found db id m conv (some k) (.badStatus errMsg) now hm
            hfind]
        refine ⟨?_, ?_⟩
        · show (getConversation db id).map (fun c => c.title) = some conv.title
          rw [hfound]
          rfl
        · intro content cid ti h
          exact TurnResult.noConfusion h
      | noContent msg =>
        rw [submitTurn_of_found db id m conv (some k) (.noContent msg) now hm
            hfind]
        refine ⟨?_, ?_⟩
        · show (getConversation db id).map (fun c => c.title) = some conv.title
          rw [hfound]
          rfl
        · intro content cid ti h
          exact TurnResult.noConfusion h
      | noText =>
        obtain ⟨h1, h2⟩ :=
          submitTurn_noText_parts db id m conv k now hm hfind
        refine ⟨?_, ?_⟩
        · rw [h2, Option.map_some']
          show some (turnTitle conv m) = some conv.title
          rw [ht]
        · intro content cid ti h
          rw [h1] at h
          injection h with hc hcid hti
          rw [← hti]
          exact ht
      | ok text =>
        obtain ⟨h1, h2⟩ :=
          submitTurn_success_parts db id m conv k text now hm hfind
        refine ⟨?_, ?_⟩
        · rw [h2, Option.map_some']
          show some (turnTitle conv m) = some conv.title
          rw [ht]
        · intro content cid ti h
          rw [h1] at h
          injection h with hc hcid hti
          rw [← hti]
          exact ht
  · intro m1 conv key1 text1 now1 m2 apiKey2 o2 now2 hm1 hm2 hfound
    have hfind : db.conversations.find? (fun c => c.id == id) = some conv :=
      hfound
    obtain ⟨h1, h2⟩ :=
      submitTurn_success_parts db id m1 conv key1 text1 now1 hm1 hfind
    have hfind1 :
        ((submitTurn db id (some m1) (some key1) (.ok text1) now1).2
          ).conversations.find? (fun c => c.id == id)
          = some { conv with
              messages := (conv.messages ++ [Message.mk userRole (some m1)])
                ++ [Message.mk assistantRole (some text1)]
              title := turnTitle conv m1
              updatedAt := now1 } := h2
    have hne :
        ({ conv with
            messages := (conv.messages ++ [Message.mk userRole (some m1)])
              ++ [Message.mk assistantRole (some text1)]
            title := turnTitle conv m1
            updatedAt := now1 } : Conversation).messages ≠ [] := by
      simp
    cases apiKey2 with
    | none =>
      rw [submitTurn_of_found _ id m2 _ none o2 now2 hm2 hfind1]
    | some k2 =>
      cases o2 with
      | fetchError msg =>
        rw [submitTurn_of_found _ id m2 _ (some k2) (.fetchError msg) now2 hm2
            hfind1]
      | badStatus errMsg =>
        rw [submitTurn_of_found _ id m2 _ (some k2) (.badStatus errMsg) now2 hm2
            hfind1]
      | noContent msg =>
        rw [submitTurn_of_found _ id m2 _ (some k2) (.noContent msg) now2 hm2
            hfind1]
      | noText =>
        obtain ⟨g1, g2⟩ :=
          submitTurn_noText_parts _ id m2 _ k2 now2 hm2 hfind1
        rw [g2, Option.map_some']
        have ht2 := turnTitle_of_not_first _ m2 (Or.inl hne)
        show some (turnTitle _ m2) = _
        rw [ht2, h2, Option.map_some']
      | ok text2 =>
        obtain ⟨g1, g2⟩ :=
          submitTurn_success_parts _ id m2 _ k2 text2 now2 hm2 hfind1
        rw [g2, Option.map_some']
        have ht2 := turnTitle_of_not_first _ m2 (Or.inl hne)
        show some (turnTitle _ m2) = _
        rw [ht2, h2, Option.map_some']

/-- Witness for C3: on the sample store, a turn into the conversation
that already holds messages and a derived title leaves that title
untouched, and a second turn after a successful first one does too. -/
theorem title_derivation_once_witness :
    ((getConversation
        (submitTurn sampleDb "202".toList (some "more".toList)
            (some "key".toList) (.ok "reply".toList) 70).2 "202".toList).map
      (fun c => c.title) = some sampleConv2.title ∧
     ∀ content cid ti,
       (submitTurn sampleDb "202".toList (some "more".toList)
           (some "key".toList) (.ok "reply".toList) 70).1
           = .success content cid ti → ti = sampleConv2.title) ∧
    (getConversation
        (submitTurn
          (submitTurn sampleDb "101".toList (some "first".toList)
              (some "key".toList) (.ok "reply1".toList) 71).2
          "101".toList (some "second".toList) (some "key".toList)
          (.ok "reply2".toList) 72).2 "101".toList).map (fun c => c.title)
      = (getConversation
          (submitTurn sampleDb "101".toList (some "first".toList)
              (some "key".toList) (.ok "reply1".toList) 71).2
          "101".toList).map (fun c => c.title) :=
  ⟨(title_derivation_once sampleDb "202".toList).1 "more".toList sampleConv2
      (some "key".toList) (.ok "reply".toList) 70 (by decide) (by decide)
      (Or.inl (by decide)),
   (title_derivation_once sampleDb "101".toList).2 "first".toList sampleConv
      "key".toList "reply1".toList 71 "second".toList (some "key".toList)
      (.ok "reply2".toList) 72 (by decide) (by decide) (by decide)⟩
